import Mathlib

/-!
Verification of the goodseed local HTTP server (`src/goodseed/server.py`).

The Python module is shallowly embedded: SQLite query results are modelled
as lists of row structures, `ORDER BY` is modelled by insertion sort on the
ordering key (insertion sort is stable, like both SQLite's ordering within
ties left unspecified and Python's `list.sort`), and the routing regexes of
`do_GET` are modelled as explicit string matchers over `List Char`.
-/

/-! ## Generic ordering helpers

SQL `ORDER BY k` / `ORDER BY k DESC` and Python `list.sort(key=..., reverse=True)`
are modelled by insertion sort with the relation pulled back along a key.
-/

section SortHelpers

variable {α : Type} {κ : Type} [LinearOrder κ]

/-- Ascending comparison pulled back along a key (SQL `ORDER BY key`). -/
def ascLE (key : α → κ) (a b : α) : Prop := key a ≤ key b

/-- Descending comparison pulled back along a key (SQL `ORDER BY key DESC`,
Python `sort(key=..., reverse=True)`). -/
def descLE (key : α → κ) (a b : α) : Prop := key b ≤ key a

/-- Strict ascending comparison on keys. -/
def ascLT (key : α → κ) (a b : α) : Prop := key a < key b

/-- Strict descending comparison on keys. -/
def descLT (key : α → κ) (a b : α) : Prop := key b < key a

instance (key : α → κ) : DecidableRel (ascLE key) :=
  fun a b => inferInstanceAs (Decidable (key a ≤ key b))

instance (key : α → κ) : DecidableRel (descLE key) :=
  fun a b => inferInstanceAs (Decidable (key b ≤ key a))

instance (key : α → κ) : IsTotal α (ascLE key) :=
  ⟨fun a b => le_total (key a) (key b)⟩

instance (key : α → κ) : IsTotal α (descLE key) :=
  ⟨fun a b => le_total (key b) (key a)⟩

instance (key : α → κ) : IsTrans α (ascLE key) :=
  ⟨fun _ _ _ h1 h2 => le_trans h1 h2⟩

instance (key : α → κ) : IsTrans α (descLE key) :=
  ⟨fun _ _ _ h1 h2 => le_trans h2 h1⟩

instance (key : α → κ) : IsAntisymm α (ascLT key) :=
  ⟨fun _ _ h1 h2 => absurd (lt_trans h1 h2) (lt_irrefl _)⟩

instance (key : α → κ) : IsAntisymm α (descLT key) :=
  ⟨fun _ _ h1 h2 => absurd (lt_trans h1 h2) (lt_irrefl _)⟩

/-- Sort ascending by a key. -/
def sortAsc (key : α → κ) (l : List α) : List α := List.insertionSort (ascLE key) l

/-- Sort descending by a key. -/
def sortDesc (key : α → κ) (l : List α) : List α := List.insertionSort (descLE key) l

theorem sortAsc_perm (key : α → κ) (l : List α) : List.Perm (sortAsc key l) l :=
  List.perm_insertionSort _ l

theorem sortDesc_perm (key : α → κ) (l : List α) : List.Perm (sortDesc key l) l :=
  List.perm_insertionSort _ l

theorem sortAsc_sorted (key : α → κ) (l : List α) :
    List.Sorted (ascLE key) (sortAsc key l) :=
  List.sorted_insertionSort _ l

theorem sortDesc_sorted (key : α → κ) (l : List α) :
    List.Sorted (descLE key) (sortDesc key l) :=
  List.sorted_insertionSort _ l

theorem sortAsc_length (key : α → κ) (l : List α) :
    (sortAsc key l).length = l.length :=
  (sortAsc_perm key l).length_eq

/-- Distinctness of keys, as an executable check. -/
def keysDistinct [DecidableEq κ] (key : α → κ) : List α → Bool
  | [] => true
  | a :: l => (l.all fun b => decide (key a ≠ key b)) && keysDistinct key l

theorem keysDistinct_pairwise [DecidableEq κ] {key : α → κ} :
    ∀ {l : List α}, keysDistinct key l = true →
      l.Pairwise (fun a b => key a ≠ key b)
  | [], _ => List.Pairwise.nil
  | a :: l, h => by
    simp only [keysDistinct, Bool.and_eq_true, List.all_eq_true, decide_eq_true_eq] at h
    exact List.Pairwise.cons h.1 (keysDistinct_pairwise h.2)

theorem pairwise_ne_of_perm {key : α → κ} {l l' : List α}
    (h : l.Pairwise (fun a b => key a ≠ key b)) (hp : List.Perm l l') :
    l'.Pairwise (fun a b => key a ≠ key b) :=
  h.perm hp (fun h12 => Ne.symm h12)

theorem sorted_ascLT_of_ne {key : α → κ} {l : List α}
    (hs : l.Pairwise (ascLE key)) (hne : l.Pairwise (fun a b => key a ≠ key b)) :
    l.Pairwise (ascLT key) :=
  (hs.and hne).imp fun h => lt_of_le_of_ne h.1 h.2

theorem sorted_descLT_of_ne {key : α → κ} {l : List α}
    (hs : l.Pairwise (descLE key)) (hne : l.Pairwise (fun a b => key a ≠ key b)) :
    l.Pairwise (descLT key) :=
  (hs.and hne).imp fun h => lt_of_le_of_ne h.1 (Ne.symm h.2)

/-- With pairwise-distinct keys, a descending sort is the reverse of the
ascending sort. -/
theorem sortDesc_eq_reverse_sortAsc (key : α → κ) (l : List α)
    (hne : l.Pairwise (fun a b => key a ≠ key b)) :
    sortDesc key l = (sortAsc key l).reverse := by
  have hperm : List.Perm (sortDesc key l) (sortAsc key l).reverse :=
    (sortDesc_perm key l).trans
      ((sortAsc_perm key l).symm.trans (sortAsc key l).reverse_perm.symm)
  have hne1 := pairwise_ne_of_perm hne (sortDesc_perm key l).symm
  have hne2 := pairwise_ne_of_perm hne (sortAsc_perm key l).symm
  have hs1 : (sortDesc key l).Pairwise (descLT key) :=
    sorted_descLT_of_ne (sortDesc_sorted key l) hne1
  have hs2 : (sortAsc key l).reverse.Pairwise (descLT key) := by
    rw [List.pairwise_reverse]
    exact sorted_ascLT_of_ne (sortAsc_sorted key l) hne2
  exact List.eq_of_perm_of_sorted hperm hs1 hs2

theorem take_reverse_eq_reverse_drop (l : List α) (n : Nat) :
    l.reverse.take n = (l.drop (l.length - n)).reverse := by
  rw [List.take_reverse]

/-- Taking the first `n` rows of the descending sort and re-sorting
ascending yields the length-`n` suffix of the ascending sort
(SQLite tail subquery pattern), provided keys are pairwise distinct. -/
theorem sortAsc_take_sortDesc (key : α → κ) (l : List α) (n : Nat)
    (hne : l.Pairwise (fun a b => key a ≠ key b)) :
    sortAsc key ((sortDesc key l).take n)
      = (sortAsc key l).drop ((sortAsc key l).length - n) := by
  have hD := sortDesc_eq_reverse_sortAsc key l hne
  set F := sortAsc key l with hF
  set X := F.drop (F.length - n) with hX
  have htake : (sortDesc key l).take n = X.reverse := by
    rw [hD, take_reverse_eq_reverse_drop]
  rw [htake]
  have hXsub : X.Sublist F := List.drop_sublist _ _
  have hXsorted : X.Pairwise (ascLE key) := (sortAsc_sorted key l).sublist hXsub
  have hFne := pairwise_ne_of_perm hne (sortAsc_perm key l).symm
  have hXne : X.Pairwise (fun a b => key a ≠ key b) := hFne.sublist hXsub
  have hperm : List.Perm (sortAsc key X.reverse) X :=
    (sortAsc_perm key X.reverse).trans X.reverse_perm
  exact List.eq_of_perm_of_sorted hperm
    (sorted_ascLT_of_ne (sortAsc_sorted key X.reverse)
      (pairwise_ne_of_perm hXne ((sortAsc_perm key X.reverse).trans X.reverse_perm).symm))
    (sorted_ascLT_of_ne hXsorted hXne)

end SortHelpers

/-! ## String series reads (`_get_string_series`)

A run store's `string_points JOIN string_series` result is modelled as a
list of rows. `store = none` models the absent sub-table (the
`sqlite3.OperationalError` branch). The ordering key mirrors the SQL:
`ORDER BY p.step` when one series is selected, `ORDER BY s.path, p.step`
otherwise.
-/

/-- One joined row of `string_points p JOIN string_series s`. -/
structure SRow where
  path : String
  step : Int
  value : String
  ts : Int
deriving DecidableEq

/-- The `WHERE s.path = ?` filter (absent when no series is named). -/
def sMatches (seriesPath : Option String) (r : SRow) : Bool :=
  match seriesPath with
  | none => true
  | some p => r.path == p

/-- The ordering key of the query: `p.step` for a single series
(embedded with a constant first component), `s.path, p.step` otherwise. -/
def sKey (seriesPath : Option String) (r : SRow) : Lex (String × Int) :=
  toLex ((match seriesPath with | some _ => "" | none => r.path), r.step)

/-- Result shape of `_get_string_series`: points plus the full count. -/
structure SResult where
  points : List SRow
  total : Nat
deriving DecidableEq

/-- Embedding of `_get_string_series(db_path, series_path, limit, offset, tail)`.

`store = none` models the table being absent, in which case the
`sqlite3.OperationalError` handler returns `{"points": [], "total": 0}`.
Otherwise `total` is the `COUNT(*)` over the same join and filter; the
`tail` branch is the `ORDER BY ... DESC LIMIT tail` subquery re-ordered
ascending; the other branch appends `LIMIT ? OFFSET ?` only when `limit`
is given. -/
def getStringSeries (store : Option (List SRow)) (seriesPath : Option String)
    (limit : Option Nat) (offset : Nat) (tail : Option Nat) : SResult :=
  match store with
  | none => { points := [], total := 0 }
  | some db =>
    let matched := db.filter (sMatches seriesPath)
    let total := matched.length
    match tail with
    | some n =>
      { points := sortAsc (sKey seriesPath) ((sortDesc (sKey seriesPath) matched).take n)
      , total := total }
    | none =>
      let sorted := sortAsc (sKey seriesPath) matched
      match limit with
      | some limitVal => { points := (sorted.drop offset).take limitVal, total := total }
      | none => { points := sorted, total := total }

/-- C2: with `tail = N`, the result has exactly `min N total` points, is
sorted ascending by the scope's ordering key, equals the suffix of the full
ordered result, and `limit`/`offset` are ignored. Stated under pairwise
distinct ordering keys (ties make the `DESC LIMIT` subquery pick an
unspecified representative). -/
theorem claim_C2_tail (db : List SRow) (sp : Option String) (n : Nat)
    (lim : Option Nat) (off : Nat)
    (hkeys : keysDistinct (sKey sp) (db.filter (sMatches sp)) = true) :
    (getStringSeries (some db) sp lim off (some n)).points.length
        = min n (getStringSeries (some db) sp lim off (some n)).total
    ∧ List.Sorted (ascLE (sKey sp)) (getStringSeries (some db) sp lim off (some n)).points
    ∧ (getStringSeries (some db) sp lim off (some n)).points
        = ((getStringSeries (some db) sp none 0 none).points).drop
            ((getStringSeries (some db) sp none 0 none).points.length - n)
    ∧ getStringSeries (some db) sp lim off (some n)
        = getStringSeries (some db) sp none 0 (some n) := by
  have hne := keysDistinct_pairwise hkeys
  refine ⟨?_, ?_, ?_, rfl⟩
  · show (sortAsc (sKey sp) ((sortDesc (sKey sp) (db.filter (sMatches sp))).take n)).length
        = min n (db.filter (sMatches sp)).length
    rw [sortAsc_length, List.length_take, (sortDesc_perm (sKey sp) _).length_eq]
  · exact sortAsc_sorted _ _
  · show sortAsc (sKey sp) ((sortDesc (sKey sp) (db.filter (sMatches sp))).take n)
        = (sortAsc (sKey sp) (db.filter (sMatches sp))).drop
            ((sortAsc (sKey sp) (db.filter (sMatches sp))).length - n)
    exact sortAsc_take_sortDesc _ _ n hne

/-- Concrete instantiation of `claim_C2_tail`. -/
theorem claim_C2_tail_wit :
    (keysDistinct (sKey none)
        ([⟨"a", 0, "x", 5⟩, ⟨"a", 1, "y", 6⟩, ⟨"b", 0, "z", 7⟩].filter (sMatches none)) = true)
    ∧ (getStringSeries (some [⟨"a", 0, "x", 5⟩, ⟨"a", 1, "y", 6⟩, ⟨"b", 0, "z", 7⟩])
          none (some 1) 2 (some 2)).points
        = ((getStringSeries (some [⟨"a", 0, "x", 5⟩, ⟨"a", 1, "y", 6⟩, ⟨"b", 0, "z", 7⟩])
          none none 0 none).points).drop
          ((getStringSeries (some [⟨"a", 0, "x", 5⟩, ⟨"a", 1, "y", 6⟩, ⟨"b", 0, "z", 7⟩])
          none none 0 none).points.length - 2) :=
  ⟨by decide,
    (claim_C2_tail [⟨"a", 0, "x", 5⟩, ⟨"a", 1, "y", 6⟩, ⟨"b", 0, "z", 7⟩]
      none 2 (some 1) 2 (by decide)).2.2.1⟩

/-- C3: with `limit = L, offset = O` the points are the slice `[O, O+L)` of
the full ordered result, and `total` is the full unfiltered matching count
(the length of the full result), whatever `L` and `O` are. -/
theorem claim_C3_limit_offset (db : List SRow) (sp : Option String) (limitVal offset : Nat) :
    (getStringSeries (some db) sp (some limitVal) offset none).points
        = (((getStringSeries (some db) sp none 0 none).points).drop offset).take limitVal
    ∧ (getStringSeries (some db) sp (some limitVal) offset none).total
        = (getStringSeries (some db) sp none 0 none).points.length := by
  exact ⟨rfl, (sortAsc_length _ _).symm⟩

/-- C5: when the string-series sub-table is absent, the read degrades to an
empty result with total 0, for every scope and paging parameters. -/
theorem claim_C5_absent_table (sp : Option String) (lim : Option Nat) (off : Nat)
    (tl : Option Nat) :
    getStringSeries none sp lim off tl = { points := [], total := 0 } := rfl

/-- C9: with no `limit`, a positive `offset` is ignored: the result is the
same as with offset 0, and no points are skipped (the point count equals
the full total). -/
theorem claim_C9_offset_ignored (db : List SRow) (sp : Option String) (offset : Nat) :
    getStringSeries (some db) sp none offset none
        = getStringSeries (some db) sp none 0 none
    ∧ (getStringSeries (some db) sp none offset none).points.length
        = (getStringSeries (some db) sp none offset none).total := by
  exact ⟨rfl, sortAsc_length _ _⟩

/-! ## JSON sanitization (`_sanitize_for_json`)

Python result trees are modelled by `PyVal`; a float is classified as NaN,
+Infinity, -Infinity or a finite value (the only distinction
`math.isnan`/`math.isinf` make). -/

/-- A Python float as classified by `math.isnan` / `math.isinf`. -/
inductive PyFloat where
  | nan : PyFloat
  | inf : PyFloat
  | ninf : PyFloat
  | finite : Rat → PyFloat
deriving DecidableEq

/-- A Python value as seen by `_sanitize_for_json`: floats, ints, strings,
bools, None, lists, and string-keyed dicts. -/
inductive PyVal where
  | vfloat : PyFloat → PyVal
  | vint : Int → PyVal
  | vstr : String → PyVal
  | vbool : Bool → PyVal
  | vnone : PyVal
  | vlist : List PyVal → PyVal
  | vdict : List (String × PyVal) → PyVal

mutual

/-- Embedding of `_sanitize_for_json`: floats are classified first (NaN,
then positive or negative Infinity by sign, else passed through); dicts map the function over
values keeping keys; lists map it over items; everything else is returned
unchanged. -/
def sanitizeForJson : PyVal → PyVal
  | .vfloat f =>
    match f with
    | .nan => .vstr "NaN"
    | .inf => .vstr "Infinity"
    | .ninf => .vstr "-Infinity"
    | .finite q => .vfloat (.finite q)
  | .vdict items => .vdict (sanitizeDict items)
  | .vlist items => .vlist (sanitizeList items)
  | v => v

/-- Value-wise sanitization of a dict's items. -/
def sanitizeDict : List (String × PyVal) → List (String × PyVal)
  | [] => []
  | (k, v) :: rest => (k, sanitizeForJson v) :: sanitizeDict rest

/-- Item-wise sanitization of a list. -/
def sanitizeList : List PyVal → List PyVal
  | [] => []
  | v :: rest => sanitizeForJson v :: sanitizeList rest

end

mutual

/-- `true` iff the tree holds no NaN or infinite float anywhere. -/
def finiteOnly : PyVal → Bool
  | .vfloat .nan => false
  | .vfloat .inf => false
  | .vfloat .ninf => false
  | .vfloat (.finite _) => true
  | .vdict items => finiteOnlyDict items
  | .vlist items => finiteOnlyList items
  | _ => true

/-- `finiteOnly` over a dict's values. -/
def finiteOnlyDict : List (String × PyVal) → Bool
  | [] => true
  | (_, v) :: rest => finiteOnly v && finiteOnlyDict rest

/-- `finiteOnly` over a list's items. -/
def finiteOnlyList : List PyVal → Bool
  | [] => true
  | v :: rest => finiteOnly v && finiteOnlyList rest

end

mutual

theorem sanitize_id_of_finiteOnly : ∀ v, finiteOnly v = true → sanitizeForJson v = v
  | .vfloat .nan, h => by simp [finiteOnly] at h
  | .vfloat .inf, h => by simp [finiteOnly] at h
  | .vfloat .ninf, h => by simp [finiteOnly] at h
  | .vfloat (.finite _), _ => rfl
  | .vint _, _ => rfl
  | .vstr _, _ => rfl
  | .vbool _, _ => rfl
  | .vnone, _ => rfl
  | .vlist items, h => by
    have h' : finiteOnlyList items = true := by simpa [finiteOnly] using h
    simp [sanitizeForJson, sanitizeList_id_of_finiteOnly items h']
  | .vdict items, h => by
    have h' : finiteOnlyDict items = true := by simpa [finiteOnly] using h
    simp [sanitizeForJson, sanitizeDict_id_of_finiteOnly items h']

theorem sanitizeDict_id_of_finiteOnly :
    ∀ items, finiteOnlyDict items = true → sanitizeDict items = items
  | [], _ => rfl
  | (k, v) :: rest, h => by
    have h1 : finiteOnly v = true ∧ finiteOnlyDict rest = true := by
      simpa [finiteOnlyDict, Bool.and_eq_true] using h
    simp [sanitizeDict, sanitize_id_of_finiteOnly v h1.1,
      sanitizeDict_id_of_finiteOnly rest h1.2]

theorem sanitizeList_id_of_finiteOnly :
    ∀ items, finiteOnlyList items = true → sanitizeList items = items
  | [], _ => rfl
  | v :: rest, h => by
    have h1 : finiteOnly v = true ∧ finiteOnlyList rest = true := by
      simpa [finiteOnlyList, Bool.and_eq_true] using h
    simp [sanitizeList, sanitize_id_of_finiteOnly v h1.1,
      sanitizeList_id_of_finiteOnly rest h1.2]

end

mutual

theorem sanitize_finiteOnly : ∀ v, finiteOnly (sanitizeForJson v) = true
  | .vfloat .nan => rfl
  | .vfloat .inf => rfl
  | .vfloat .ninf => rfl
  | .vfloat (.finite _) => rfl
  | .vint _ => rfl
  | .vstr _ => rfl
  | .vbool _ => rfl
  | .vnone => rfl
  | .vlist items => by
    simp [sanitizeForJson, finiteOnly, sanitizeList_finiteOnly items]
  | .vdict items => by
    simp [sanitizeForJson, finiteOnly, sanitizeDict_finiteOnly items]

theorem sanitizeDict_finiteOnly : ∀ items, finiteOnlyDict (sanitizeDict items) = true
  | [] => rfl
  | (k, v) :: rest => by
    simp [sanitizeDict, finiteOnlyDict, sanitize_finiteOnly v,
      sanitizeDict_finiteOnly rest]

theorem sanitizeList_finiteOnly : ∀ items, finiteOnlyList (sanitizeList items) = true
  | [] => rfl
  | v :: rest => by
    simp [sanitizeList, finiteOnlyList, sanitize_finiteOnly v,
      sanitizeList_finiteOnly rest]

end

theorem sanitizeList_eq_map : ∀ items, sanitizeList items = items.map sanitizeForJson
  | [] => rfl
  | v :: rest => by simp [sanitizeList, sanitizeList_eq_map rest]

theorem sanitizeDict_eq_map :
    ∀ items, sanitizeDict items = items.map (fun kv => (kv.1, sanitizeForJson kv.2))
  | [] => rfl
  | (k, v) :: rest => by simp [sanitizeDict, sanitizeDict_eq_map rest]

/-- C4: sanitization sends NaN to "NaN", +Infinity to "Infinity",
-Infinity to "-Infinity"; finite floats and the other scalars pass through;
dicts and lists are mapped recursively keeping keys and order; a tree with
no non-finite float is left entirely unchanged; and the output never
contains a non-finite float (every NaN/Infinity was replaced). -/
theorem claim_C4_sanitize :
    sanitizeForJson (.vfloat .nan) = .vstr "NaN"
    ∧ sanitizeForJson (.vfloat .inf) = .vstr "Infinity"
    ∧ sanitizeForJson (.vfloat .ninf) = .vstr "-Infinity"
    ∧ (∀ q : Rat, sanitizeForJson (.vfloat (.finite q)) = .vfloat (.finite q))
    ∧ (∀ n : Int, sanitizeForJson (.vint n) = .vint n)
    ∧ (∀ s : String, sanitizeForJson (.vstr s) = .vstr s)
    ∧ (∀ items, sanitizeForJson (.vlist items) = .vlist (items.map sanitizeForJson))
    ∧ (∀ items, sanitizeForJson (.vdict items)
        = .vdict (items.map (fun kv => (kv.1, sanitizeForJson kv.2))))
    ∧ (∀ v, finiteOnly v = true → sanitizeForJson v = v)
    ∧ (∀ v, finiteOnly (sanitizeForJson v) = true) :=
  ⟨rfl, rfl, rfl, fun _ => rfl, fun _ => rfl, fun _ => rfl,
    fun items => by simp [sanitizeForJson, sanitizeList_eq_map items],
    fun items => by simp [sanitizeForJson, sanitizeDict_eq_map items],
    sanitize_id_of_finiteOnly, sanitize_finiteOnly⟩

/-- Concrete instantiation of `claim_C4_sanitize` on a nested finite-only
tree. -/
theorem claim_C4_sanitize_wit :
    finiteOnly (.vdict [("a", .vlist [.vfloat (.finite 1), .vint 3])]) = true
    ∧ sanitizeForJson (.vdict [("a", .vlist [.vfloat (.finite 1), .vint 3])])
        = .vdict [("a", .vlist [.vfloat (.finite 1), .vint 3])] :=
  ⟨rfl, claim_C4_sanitize.2.2.2.2.2.2.2.2.1 _ rfl⟩

/-! ## Directory scans (`_scan_runs`, `_scan_projects`)

The `projects_dir.glob` result is modelled as the list of discovered run
store files, in the sorted order the code iterates them. For `_scan_runs`,
a candidate whose store cannot be opened or parsed (the `except Exception`
branch) is modelled with `store = none`. -/

/-- The empty string is the bottom of the String order. -/
theorem str_empty_le (s : String) : "" ≤ s := by
  rw [String.le_iff_toList_le]
  exact List.nil_le

theorem str_le_empty {s : String} (h : s ≤ "") : s = "" :=
  le_antisymm h (str_empty_le s)

/-- In a list sorted descending by a String key with a `getD ""` style
fallback, every element after one whose key is `""` also has key `""`:
entries with an unpopulated key are a suffix. -/
theorem sortDesc_empty_key_last {α : Type} (key : α → String) (l : List α) :
    (sortDesc key l).Pairwise (fun a b => key a = "" → key b = "") :=
  (sortDesc_sorted key l).imp fun hba ha => str_le_empty (ha ▸ hba)

/-- What a run store yields once opened: the `run_meta` key/value rows, and
the distinct string-series paths (`none` models the `string_series` table
being absent, which `_scan_runs` turns into `[]`). -/
structure StoreData where
  meta : List (String × String)
  stringSeries : Option (List String)

/-- One candidate file found by the `**/runs/*.sqlite` glob. `project` is
the path of the grandparent directory relative to the scan root, `stem` the
file's base name. `store = none` models a file that cannot be opened or
parsed. -/
structure RunFile where
  project : String
  stem : String
  store : Option StoreData

/-- Python `dict.get` over the `run_meta` mapping. -/
def metaGet (meta : List (String × String)) (k : String) : Option String :=
  (meta.find? (fun kv => kv.1 == k)).map (fun kv => kv.2)

/-- One entry of the `/api/runs` listing. -/
structure RunInfo where
  project : String
  runId : String
  experimentName : Option String
  createdAt : Option String
  closedAt : Option String
  status : String
  stringSeriesPaths : List String
deriving DecidableEq

/-- The run dict `_scan_runs` appends for a readable store. -/
def buildRun (f : RunFile) (d : StoreData) : RunInfo :=
  { project := f.project
  , runId := (metaGet d.meta "run_name").getD f.stem
  , experimentName := metaGet d.meta "experiment_name"
  , createdAt := metaGet d.meta "created_at"
  , closedAt := metaGet d.meta "closed_at"
  , status := (metaGet d.meta "status").getD "unknown"
  , stringSeriesPaths := d.stringSeries.getD [] }

/-- The sort key of `_scan_runs`: `r.get("created_at") or ""`. -/
def runSortKey (r : RunInfo) : String := r.createdAt.getD ""

/-- Embedding of `_scan_runs`: build a run per readable store, skip
unreadable ones, then sort by `created_at` descending. -/
def scanRuns (files : List RunFile) : List RunInfo :=
  sortDesc runSortKey (files.filterMap fun f => f.store.map (buildRun f))

/-- C6: the deep scan returns exactly the runs built from the readable
files — it is a permutation of the per-readable-file results (the final
sort reorders them), and a run is returned iff some readable file produces
it; unreadable files are skipped and never abort the scan. -/
theorem claim_C6_skip_unreadable (files : List RunFile) :
    List.Perm (scanRuns files) (files.filterMap fun f => f.store.map (buildRun f))
    ∧ (∀ r : RunInfo, r ∈ scanRuns files
        ↔ ∃ f ∈ files, ∃ d, f.store = some d ∧ r = buildRun f d)
    ∧ (scanRuns files).length = (files.filter fun f => f.store.isSome).length := by
  have hperm : List.Perm (scanRuns files)
      (files.filterMap fun f => f.store.map (buildRun f)) :=
    sortDesc_perm _ _
  refine ⟨hperm, ?_, ?_⟩
  · intro r
    rw [hperm.mem_iff, List.mem_filterMap]
    constructor
    · rintro ⟨f, hf, hmap⟩
      rcases Option.map_eq_some'.mp hmap with ⟨d, hd, hr⟩
      exact ⟨f, hf, d, hd, hr.symm⟩
    · rintro ⟨f, hf, d, hd, hr⟩
      exact ⟨f, hf, by rw [hd, hr]; rfl⟩
  · rw [hperm.length_eq]
    clear hperm
    induction files with
    | nil => rfl
    | cons f rest ih =>
      cases hst : f.store with
      | none => simpa [List.filterMap_cons, List.filter_cons, hst] using ih
      | some d => simpa [List.filterMap_cons, List.filter_cons, hst] using ih

/-- C7: `_scan_runs` output is sorted by `created_at` descending (with the
`or ""` fallback key), and once a run with a missing or empty `created_at`
appears, every later run also has the fallback key `""` — runs with a
populated timestamp all come before runs with a missing one. -/
theorem claim_C7_sorted_desc (files : List RunFile) :
    List.Sorted (descLE runSortKey) (scanRuns files)
    ∧ (scanRuns files).Pairwise
        (fun a b => a.createdAt = none → runSortKey b = "") := by
  refine ⟨sortDesc_sorted _ _, ?_⟩
  exact (sortDesc_empty_key_last runSortKey _).imp
    (fun h ha => h (by simp [runSortKey, ha]))

/-- One candidate file for the lightweight scan: the project it groups
under and the file's modification time as an ISO string (the code compares
these strings directly). -/
structure ProjFile where
  project : String
  mtime : String

/-- One entry of the `/api/projects` listing. -/
structure ProjectInfo where
  name : String
  runCount : Nat
  lastModified : Option String
deriving DecidableEq

/-- The per-file update of `_scan_projects`: increment `run_count` and
raise `last_modified` to the file's mtime when it is larger (or when no
mtime was recorded yet). -/
def updateProj (f : ProjFile) (p : ProjectInfo) : ProjectInfo :=
  let p1 : ProjectInfo := { p with runCount := p.runCount + 1 }
  match p1.lastModified with
  | none => { p1 with lastModified := some f.mtime }
  | some m => if m < f.mtime then { p1 with lastModified := some f.mtime } else p1

/-- One iteration of the `_scan_projects` loop: create the project entry on
first sight (Python dicts keep insertion order, modelled by appending),
then apply the update to the entry with that name. -/
def insertProjFile (acc : List ProjectInfo) (f : ProjFile) : List ProjectInfo :=
  let acc1 := if acc.any (fun p => p.name == f.project) then acc
    else acc ++ [{ name := f.project, runCount := 0, lastModified := none }]
  acc1.map (fun p => if p.name == f.project then updateProj f p else p)

/-- The sort key of `_scan_projects`: `p["last_modified"] or ""`. -/
def projSortKey (p : ProjectInfo) : String := p.lastModified.getD ""

/-- Embedding of `_scan_projects`: fold the files into per-project
aggregates, then sort by `last_modified` descending. -/
def scanProjects (files : List ProjFile) : List ProjectInfo :=
  sortDesc projSortKey (files.foldl insertProjFile [])

/-- C10: the lightweight scan returns projects sorted by `last_modified`
descending (with the `or ""` fallback key), and after a project with a
missing or empty `last_modified`, every later project also has the
fallback key `""` — projects with a populated timestamp all come first. -/
theorem claim_C10_projects_sorted (files : List ProjFile) :
    List.Sorted (descLE projSortKey) (scanProjects files)
    ∧ (scanProjects files).Pairwise
        (fun a b => a.lastModified = none → projSortKey b = "") := by
  refine ⟨sortDesc_sorted _ _, ?_⟩
  exact (sortDesc_empty_key_last projSortKey _).imp
    (fun h ha => h (by simp [projSortKey, ha]))

/-! ## Request routing (`_ROUTE_*` patterns, `do_GET`, `_resolve_run_db`)

The decoded URL path is a `List Char`. The run-route regexes
`^/api/runs/(.+)/([^/]+)/<endpoint>$` are embedded as an explicit matcher:
the run capture cannot contain `/`, so the split point is forced to the
last `/` of the middle part; `(.+)` requires a nonempty project without a
newline (`.` does not match newlines), `([^/]+)` a nonempty run segment
without `/`. The filesystem is a list of existing files as normalized
absolute segment lists; `Path.exists` resolves `.`/`..` segments, which
`normSegs` models. A leading-`/` project (absolute-path override in
`pathlib`) is outside this model. -/

/-- Strip an exact leading sequence, returning the remainder. -/
def dropPre : List Char → List Char → Option (List Char)
  | [], s => some s
  | _ :: _, [] => none
  | p :: ps, c :: cs => if p = c then dropPre ps cs else none

/-- Strip an exact trailing sequence, returning the initial part. -/
def dropSuf (s suf : List Char) : Option (List Char) :=
  (dropPre suf.reverse s.reverse).map List.reverse

/-- Split at the last slash: everything before it and the final
slash-free segment. `none` when there is no slash. -/
def splitLastSlash (mid : List Char) : Option (List Char × List Char) :=
  let rrun := mid.reverse.takeWhile (fun c => c ≠ '/')
  if rrun.length = mid.length then none
  else some (mid.take (mid.length - rrun.length - 1), rrun.reverse)

/-- Embedding of one `^/api/runs/(.+)/([^/]+)/<endpoint>$` route pattern:
returns the `(project, run)` captures on a match. -/
def runRoutePat (endpoint : List Char) (path : List Char) :
    Option (List Char × List Char) :=
  match dropPre ("/api/runs/".toList) path with
  | none => none
  | some rest =>
    match dropSuf rest ('/' :: endpoint) with
    | none => none
    | some mid =>
      match splitLastSlash mid with
      | none => none
      | some (project, run) =>
        if project ≠ [] ∧ project.all (fun c => c ≠ '\n') = true ∧ run ≠ []
        then some (project, run) else none

/-- Split a captured project on slashes into path segments, dropping empty
segments (consecutive or trailing slashes collapse in a `pathlib` join). -/
def segsOfAux (cur : List Char) : List Char → List String
  | [] => [String.mk cur.reverse]
  | c :: cs =>
    if c = '/' then String.mk cur.reverse :: segsOfAux [] cs
    else segsOfAux (c :: cur) cs

/-- Path segments of a captured project string. -/
def segsOf (cs : List Char) : List String :=
  (segsOfAux [] cs).filter (fun seg => seg ≠ "")

/-- Normalize a joined absolute path the way the OS resolves it when
`Path.exists` is called: `..` pops a segment, `.` is dropped. -/
def normSegs (acc : List String) : List String → List String
  | [] => acc
  | s :: rest =>
    if s = ".." then normSegs acc.dropLast rest
    else if s = "." then normSegs acc rest
    else normSegs (acc ++ [s]) rest

/-- Embedding of `_resolve_run_db`: join
`projects_dir / project / "runs" / f"{run_name}.sqlite"` with no
containment check, and return the resolved path iff it exists. -/
def resolveRunDb (fs : List (List String)) (root : List String)
    (project run : List Char) : Option (List String) :=
  let joined := root ++ (segsOf project ++ ["runs", String.mk run ++ ".sqlite"])
  let resolved := normSegs [] joined
  if fs.contains resolved then some resolved else none

/-- The logical operation a request resolves to, with the store file the
handler will open. -/
inductive ApiOp where
  | listProjects : ApiOp
  | listRuns : ApiOp
  | getConfigs : List String → ApiOp
  | getMetrics : List String → ApiOp
  | getMetricPaths : List String → ApiOp
  | getStringSeriesOp : List String → ApiOp
deriving DecidableEq

/-- Outcome of routing a GET request. -/
inductive Response where
  | ok : ApiOp → Response
  | err : Nat → String → Response
deriving DecidableEq

/-- The 404 message `do_GET` sends when a run file does not resolve. -/
def notFoundMsg (project run : List Char) : String :=
  "Run not found: " ++ String.mk project ++ "/" ++ String.mk run

/-- Shared run-route handler body: resolve the store file, 404 naming the
project and run when it is absent. -/
def routeRun (fs : List (List String)) (root : List String)
    (mk : List String → ApiOp) (pr : List Char × List Char) : Response :=
  match resolveRunDb fs root pr.1 pr.2 with
  | none => .err 404 (notFoundMsg pr.1 pr.2)
  | some db => .ok (mk db)

/-- Embedding of the routing part of `do_GET`: patterns are tried in the
source order, first match wins, no match is a 404. -/
def routeGet (fs : List (List String)) (root : List String)
    (path : List Char) : Response :=
  if path = "/api/projects".toList then .ok .listProjects
  else if path = "/api/runs".toList then .ok .listRuns
  else match runRoutePat ("configs".toList) path with
  | some pr => routeRun fs root .getConfigs pr
  | none =>
    match runRoutePat ("metrics".toList) path with
    | some pr => routeRun fs root .getMetrics pr
    | none =>
      match runRoutePat ("metric-paths".toList) path with
      | some pr => routeRun fs root .getMetricPaths pr
      | none =>
        match runRoutePat ("string_series".toList) path with
        | some pr => routeRun fs root .getStringSeriesOp pr
        | none => .err 404 "Not found"

theorem dropPre_append : ∀ pre s : List Char, dropPre pre (pre ++ s) = some s
  | [], s => rfl
  | p :: ps, s => by simp [dropPre, dropPre_append ps s]

theorem dropSuf_append (mid suf : List Char) : dropSuf (mid ++ suf) suf = some mid := by
  simp [dropSuf, List.reverse_append, dropPre_append]

theorem takeWhile_append_all {p : Char → Bool} :
    ∀ (l1 : List Char) (c : Char) (l2 : List Char), l1.all p = true → p c = false →
      (l1 ++ c :: l2).takeWhile p = l1
  | [], c, l2, _, hc => by simp [List.takeWhile_cons, hc]
  | a :: l1, c, l2, h, hc => by
    simp only [List.all_cons, Bool.and_eq_true] at h
    simp [List.takeWhile_cons, h.1, takeWhile_append_all l1 c l2 h.2 hc]

theorem splitLastSlash_append (project run : List Char)
    (hr : run.all (fun c => c ≠ '/') = true) :
    splitLastSlash (project ++ '/' :: run) = some (project, run) := by
  have hrev : (project ++ '/' :: run).reverse = run.reverse ++ '/' :: project.reverse := by
    simp [List.reverse_append]
  have hall : run.reverse.all (fun c => c ≠ '/') = true := by
    simpa [List.all_reverse] using hr
  have htw : (project ++ '/' :: run).reverse.takeWhile (fun c => c ≠ '/') = run.reverse := by
    rw [hrev]
    exact takeWhile_append_all run.reverse '/' project.reverse hall (by simp)
  have hlen : (project ++ '/' :: run).length = project.length + run.length + 1 := by
    simp [List.length_append]
    omega
  unfold splitLastSlash
  rw [htw]
  have hne : run.reverse.length ≠ (project ++ '/' :: run).length := by
    simp only [List.length_reverse, hlen]
    omega
  rw [if_neg hne]
  have htake : (project ++ '/' :: run).take
      ((project ++ '/' :: run).length - run.reverse.length - 1) = project := by
    have harith : (project ++ '/' :: run).length - run.reverse.length - 1
        = project.length := by
      simp only [List.length_reverse, hlen]
      omega
    rw [harith]
    exact List.take_left project ('/' :: run)
  rw [htake, List.reverse_reverse]

/-- C8: the run-route patterns capture a greedy, possibly `/`-containing
project up to the last `/` before the single-segment run capture; a path
matching no route yields a 404 "Not found"; and a matched route whose run
file does not resolve yields a 404 naming the project and run (shown for
each endpoint in the order the router tries them). -/
theorem claim_C8_routing (fs : List (List String)) (root : List String)
    (project run : List Char)
    (hp1 : project ≠ []) (hp2 : project.all (fun c => c ≠ '\n') = true)
    (hr1 : run ≠ []) (hr2 : run.all (fun c => c ≠ '/') = true) :
    (∀ ep : List Char,
      runRoutePat ep ("/api/runs/".toList ++ ((project ++ '/' :: run) ++ '/' :: ep))
        = some (project, run))
    ∧ (∀ path : List Char,
        path ≠ "/api/projects".toList → path ≠ "/api/runs".toList →
        runRoutePat ("configs".toList) path = none →
        runRoutePat ("metrics".toList) path = none →
        runRoutePat ("metric-paths".toList) path = none →
        runRoutePat ("string_series".toList) path = none →
        routeGet fs root path = .err 404 "Not found")
    ∧ (∀ (path pr1 pr2 : List Char),
        path ≠ "/api/projects".toList → path ≠ "/api/runs".toList →
        runRoutePat ("configs".toList) path = some (pr1, pr2) →
        resolveRunDb fs root pr1 pr2 = none →
        routeGet fs root path = .err 404 (notFoundMsg pr1 pr2))
    ∧ (∀ (path pr1 pr2 : List Char),
        path ≠ "/api/projects".toList → path ≠ "/api/runs".toList →
        runRoutePat ("configs".toList) path = none →
        runRoutePat ("metrics".toList) path = some (pr1, pr2) →
        resolveRunDb fs root pr1 pr2 = none →
        routeGet fs root path = .err 404 (notFoundMsg pr1 pr2))
    ∧ (∀ (path pr1 pr2 : List Char),
        path ≠ "/api/projects".toList → path ≠ "/api/runs".toList →
        runRoutePat ("configs".toList) path = none →
        runRoutePat ("metrics".toList) path = none →
        runRoutePat ("metric-paths".toList) path = some (pr1, pr2) →
        resolveRunDb fs root pr1 pr2 = none →
        routeGet fs root path = .err 404 (notFoundMsg pr1 pr2))
    ∧ (∀ (path pr1 pr2 : List Char),
        path ≠ "/api/projects".toList → path ≠ "/api/runs".toList →
        runRoutePat ("configs".toList) path = none →
        runRoutePat ("metrics".toList) path = none →
        runRoutePat ("metric-paths".toList) path = none →
        runRoutePat ("string_series".toList) path = some (pr1, pr2) →
        resolveRunDb fs root pr1 pr2 = none →
        routeGet fs root path = .err 404 (notFoundMsg pr1 pr2)) := by
  refine ⟨?_, ?_, ?_, ?_, ?_, ?_⟩
  · intro ep
    simp only [runRoutePat, dropPre_append, dropSuf_append,
      splitLastSlash_append project run hr2]
    simp [hp1, hp2, hr1]
    intro hmem
    simpa using List.all_eq_true.mp hp2 _ hmem
  · intro path h1 h2 hc hm hmp hss
    unfold routeGet
    rw [if_neg h1, if_neg h2, hc, hm, hmp, hss]
  · intro path pr1 pr2 h1 h2 hc hres
    unfold routeGet
    rw [if_neg h1, if_neg h2, hc]
    simp [routeRun, hres]
  · intro path pr1 pr2 h1 h2 hc hm hres
    unfold routeGet
    rw [if_neg h1, if_neg h2, hc, hm]
    simp [routeRun, hres]
  · intro path pr1 pr2 h1 h2 hc hm hmp hres
    unfold routeGet
    rw [if_neg h1, if_neg h2, hc, hm, hmp]
    simp [routeRun, hres]
  · intro path pr1 pr2 h1 h2 hc hm hmp hss hres
    unfold routeGet
    rw [if_neg h1, if_neg h2, hc, hm, hmp, hss]
    simp [routeRun, hres]

/-- Concrete instantiation of `claim_C8_routing`: a nested project name
`a/b` is captured greedily, an unknown path 404s, and a missing run file
404s with a message naming the project and run. -/
theorem claim_C8_routing_wit :
    runRoutePat ("configs".toList)
        ("/api/runs/".toList ++ (("a/b".toList ++ '/' :: "r1".toList) ++ '/' :: "configs".toList))
      = some ("a/b".toList, "r1".toList)
    ∧ routeGet [] [] ("/nope".toList) = .err 404 "Not found"
    ∧ routeGet [] [] ("/api/runs/p/r/configs".toList)
      = .err 404 (notFoundMsg ("p".toList) ("r".toList)) := by
  have h := claim_C8_routing [] [] ("a/b".toList) ("r1".toList)
    (by decide) (by decide) (by decide) (by decide)
  refine ⟨h.1 ("configs".toList), ?_, ?_⟩
  · exact h.2.1 ("/nope".toList) (by decide) (by decide) (by decide) (by decide)
      (by decide) (by decide)
  · exact h.2.2.1 ("/api/runs/p/r/configs".toList) ("p".toList) ("r".toList)
      (by decide) (by decide) (by decide) (by decide)

/-- C1 claims the resolved path is validated to stay under the configured
root. The code performs a direct join with no containment check: with root
`/home/projects` and an existing file `/home/secrets/runs/x.sqlite`, the
request `/api/runs/../secrets/x/configs` resolves to and opens a file
outside the root. -/
theorem claim_C1_traversal_bug :
    resolveRunDb [["home", "secrets", "runs", "x.sqlite"]] ["home", "projects"]
        ("../secrets".toList) ("x".toList)
      = some ["home", "secrets", "runs", "x.sqlite"]
    ∧ List.isPrefixOf ["home", "projects"] ["home", "secrets", "runs", "x.sqlite"] = false
    ∧ routeGet [["home", "secrets", "runs", "x.sqlite"]] ["home", "projects"]
        ("/api/runs/../secrets/x/configs".toList)
      = .ok (.getConfigs ["home", "secrets", "runs", "x.sqlite"]) := by
  refine ⟨by decide, by decide, by decide⟩
